import Mathlib

/-! gdrive-upload-action: upload reconciliation and optional un-archiving

Shallow embedding of `main.go`.  The Drive service (`svc *drive.Service`) is a
record of state-passing functions over an arbitrary store state; every function
that talks to the store returns, next to its Go results, the store state it
leaves and the ordered list of store calls it issued.  The local file handle
(`*os.File`) is the file's bytes together with the read offset of the handle.
Debug logging (`githubactions.Debugf`, `AddMask`, `log.Println`) has no effect
on the results and is left out.
-/

namespace GDriveUpload

/-! ## Data model -/

/-- Raw bytes; every element is one byte value. -/
abbrev Bytes := List Nat

/-- The fields of `drive.File` that `main.go` reads or writes. -/
structure DriveFile where
  Id : String
  Name : String
  Parents : List String
  deriving DecidableEq, Repr

/-- An `*os.File`: the name given to `os.Open`, the bytes of the file and the
read offset of the handle. -/
structure File where
  name : String
  data : Bytes
  offset : Nat
  deriving DecidableEq, Repr

/-- `os.Open(filename)` on a file holding `data`: a handle at offset 0 that
remembers the name it was opened with. -/
def osOpen (filename : String) (data : Bytes) : File :=
  { name := filename, data := data, offset := 0 }

/-- `file.Name()`: the name of the file as presented to `os.Open`. -/
def File.Name (f : File) : String := f.name

/-- The bytes an upload call draws from the handle passed to `.Media(file)`:
everything from the current offset to the end of the file. -/
def File.media (f : File) : Bytes := f.data.drop f.offset

/-- The handle after an upload call has drained it: the offset is at the end of
the file (an `io.Reader` is never rewound). -/
def File.drained (f : File) : File := { f with offset := f.data.length }

/-- One call on the Drive service. -/
inductive Call where
  | list (q : String)
  | update (fileId : String) (metadata : DriveFile) (media : Bytes)
  | create (metadata : DriveFile) (media : Bytes)
  deriving DecidableEq, Repr

/-- A store call together with whether it returned a nil error. -/
structure Event where
  call : Call
  ok : Bool
  deriving DecidableEq, Repr

def Call.isList : Call → Bool
  | .list _ => true
  | _ => false

def Call.isUpdate : Call → Bool
  | .update _ _ _ => true
  | _ => false

def Call.isCreate : Call → Bool
  | .create _ _ => true
  | _ => false

/-- The object id an update call is directed at. -/
def Call.target? : Call → Option String
  | .update fileId _ _ => some fileId
  | _ => none

/-- The bytes a write call uploads. -/
def Call.media? : Call → Option Bytes
  | .update _ _ m => some m
  | .create _ m => some m
  | .list _ => none

/-- The Drive service as used by `main.go`: `Files.List().Q(q).Do()`,
`Files.Update(id, metadata).Media(r).Do()` and `Files.Create(metadata).Media(r).Do()`.
Each call returns its result or an error, and the state the store is left in. -/
structure Store (σ : Type) where
  list : σ → String → Except String (List DriveFile) × σ
  update : σ → String → DriveFile → Bytes → Except String DriveFile × σ
  create : σ → DriveFile → Bytes → Except String DriveFile × σ

/-- The errors built by `fmt.Errorf` in `uploadOrUpdateFile`: the operation, the
value printed with `%+v` and the store error. -/
inductive UploadErr where
  | querying (q : String) (e : String)
  | updating (f : DriveFile) (e : String)
  | creating (f : DriveFile) (e : String)
  deriving DecidableEq, Repr

/-- The Go results `(string, error)` of `uploadOrUpdateFile`, with the store
state and file handle it leaves and the store calls it issued, in order. -/
structure UploadResult (σ : Type) where
  fileId : String
  err : Option UploadErr
  store : σ
  file : File
  trace : List Event

/-! ## uploadOrUpdateFile -/

/-- The query string: `fmt.Sprintf("name = '%s' and '%s' in parents", name, folderId)`. -/
def filenameQuery (name folderId : String) : String :=
  "name = '" ++ name ++ "' and '" ++ folderId ++ "' in parents"

/-- The loop `for _, driveFile := range filesQueryCallResult.Files`: `fileId` is
the value of the variable `fileId` on entry. -/
def updateLoop {σ : Type} (svc : Store σ) (name : String) :
    List DriveFile → σ → File → String → UploadResult σ
  | [], s, file, fileId =>
      { fileId := fileId, err := none, store := s, file := file, trace := [] }
  | driveFile :: rest, s, file, _ =>
      let metadata : DriveFile := { Id := "", Name := name, Parents := [] }
      let call := Call.update driveFile.Id metadata file.media
      match svc.update s driveFile.Id metadata file.media with
      | (.error e, s1) =>
          { fileId := "", err := some (.updating driveFile e), store := s1,
            file := file.drained, trace := [⟨call, false⟩] }
      | (.ok _, s1) =>
          let r := updateLoop svc name rest s1 file.drained driveFile.Id
          { r with trace := ⟨call, true⟩ :: r.trace }

/-- The block `if uploadNewFile { ... }` when `uploadNewFile` is true. -/
def createNew {σ : Type} (svc : Store σ) (s : σ) (file : File) (name folderId : String) :
    UploadResult σ :=
  let f : DriveFile := { Id := "", Name := name, Parents := [folderId] }
  let call := Call.create f file.media
  match svc.create s f file.media with
  | (.error e, s1) =>
      { fileId := "", err := some (.creating f e), store := s1,
        file := file.drained, trace := [⟨call, false⟩] }
  | (.ok createdFile, s1) =>
      { fileId := createdFile.Id, err := none, store := s1,
        file := file.drained, trace := [⟨call, true⟩] }

/-- `uploadOrUpdateFile(svc, file, name, folderId, overwrite)`. -/
def uploadOrUpdateFile {σ : Type} (svc : Store σ) (s : σ) (file : File)
    (name folderId : String) (overwrite : Bool) : UploadResult σ :=
  if overwrite then
    let q := filenameQuery name folderId
    match svc.list s q with
    | (.error e, s1) =>
        { fileId := "", err := some (.querying q e), store := s1, file := file,
          trace := [⟨.list q, false⟩] }
    | (.ok files, s1) =>
        if files.length != 0 then
          -- uploadNewFile = false
          let r := updateLoop svc name files s1 file ""
          { r with trace := ⟨.list q, true⟩ :: r.trace }
        else
          let r := createNew svc s1 file name folderId
          { r with trace := ⟨.list q, true⟩ :: r.trace }
  else
    createNew svc s file name folderId

/-! ## unzipGoogleDriveFile -/

/-- The two stages of `unzipGoogleDriveFile`. -/
inductive Step where
  | download (fileId : String)
  | extract (content : Bytes) (destFolder : String)
  deriving DecidableEq, Repr

/-- The Go result `error` of `unzipGoogleDriveFile`, with the store state it
leaves, the stages it ran and the store calls the extract stage issued. -/
structure UnzipResult (σ : Type) where
  err : Option String
  store : σ
  steps : List Step
  created : List Event

/-- `unzipGoogleDriveFile(svc, fileId, destFolder)`.  The helpers `downloadFile`
and `unzipFile` are called but not defined in `main.go`; they are parameters
here.  `unzipFile` also reports the store calls it issued. -/
def unzipGoogleDriveFile {σ : Type} (svc : Store σ)
    (downloadFile : Store σ → σ → String → Except String Bytes × σ)
    (unzipFile : Store σ → σ → Bytes → String → Option String × σ × List Event)
    (s : σ) (fileId destFolder : String) : UnzipResult σ :=
  match downloadFile svc s fileId with
  | (.error err, s1) =>
      { err := some err, store := s1, steps := [.download fileId], created := [] }
  | (.ok fileReader, s1) =>
      match unzipFile svc s1 fileReader destFolder with
      | (err, s2, calls) =>
          { err := err, store := s2,
            steps := [.download fileId, .extract fileReader destFolder], created := calls }

/-! ## main -/

def filenameInput : String := "filename"
def nameInput : String := "name"
def folderIdInput : String := "folderId"
def credentialsInput : String := "credentials"
def encodedInput : String := "encoded"
def scope : String := "https://www.googleapis.com/auth/drive.file"

/-- The action inputs, as returned by `githubactions.GetInput`. -/
structure Inputs where
  filename : String
  name : String
  folderId : String
  credentials : String
  encoded : String
  overwrite : String
  toUnzip : String
  deriving DecidableEq, Repr

/-- What `main` calls outside this file: base64 decoding, the JWT
configuration, the file system, the Drive service and the two helpers of
`unzipGoogleDriveFile` (reached only from lines 130-135). -/
structure Env (σ : Type) where
  decodeString : String → Except String String
  jwtConfigFromJSON : String → String → Except String Unit
  readFile : String → Except String Bytes
  svc : Store σ
  downloadFile : Store σ → σ → String → Except String Bytes × σ
  unzipFile : Store σ → σ → Bytes → String → Option String × σ × List Event

/-- The calls of `githubactions.Fatalf` in `main`; each ends the process with a
non-zero exit code. -/
inductive Fatal where
  | missingInput (inputName : String)
  | incorrectInput (inputName reason : String)
  | base64 (e : String)
  | jwt (e : String)
  | openFile (filename e : String)
  | upload (e : UploadErr)
  deriving DecidableEq, Repr

/-- What lines 30-127 of a run of `main` did: the call of `Fatalf` that ended
the run, if any, the result of the call of `uploadOrUpdateFile` (if it was
reached), and the store state. -/
structure MainResult (σ : Type) where
  fatal : Option Fatal
  upload : Option (UploadResult σ)
  store : σ

/-- `strings.TrimSuffix(s, suffix)`. -/
def trimSuffix (s suffix : String) : String :=
  if suffix.data.isSuffixOf s.data then
    String.mk (s.data.take (s.data.length - suffix.data.length))
  else s

/-- Lines 103-106 of `main`: `if name == "" { name = file.Name() }`. -/
def resolveName (name : String) (file : File) : String :=
  if name = "" then file.Name else name

/-- Lines 108-115: the overwrite flag; a `bool` variable starts as `false`. -/
def parseOverwrite (overwriteStr : String) : Bool :=
  if overwriteStr = "" ∨ overwriteStr = "true" then true
  else if overwriteStr = "false" then false
  else false

/-- Lines 55-64: the encoded flag; `none` is the call of `incorrectInput`. -/
def parseEncoded (encodedStr : String) : Option Bool :=
  if encodedStr = "" ∨ encodedStr = "true" then some true
  else if encodedStr = "false" then some false
  else none

/-- A run that ended in `githubactions.Fatalf` before the upload step. -/
def earlyFatal {σ : Type} (s : σ) (f : Fatal) : MainResult σ :=
  { fatal := some f, upload := none, store := s }

/-- Lines 98-115 and 124-127 of `main`: from `os.Open` to the upload step and the
`Fatalf` on its error. -/
def mainUpload {σ : Type} (env : Env σ) (inp : Inputs) (s : σ) : MainResult σ :=
  match env.readFile inp.filename with
  | .error e => earlyFatal s (.openFile inp.filename e)
  | .ok data =>
    let file := osOpen inp.filename data
    let name := resolveName inp.name file
    let overwrite := parseOverwrite inp.overwrite
    let up := uploadOrUpdateFile env.svc s file name inp.folderId overwrite
    match up.err with
    | some e => { fatal := some (.upload e), upload := some up, store := up.store }
    | none => { fatal := none, upload := some up, store := up.store }

/-- The function `main`, up to and including the upload step (lines 30-127).
An error of `drive.New` is only logged and the run goes on; the service the run
uses is `env.svc`.  The toUnzip flag (lines 117-123) and the call of
`unzipGoogleDriveFile` (lines 130-135) are not embedded: line 121 compares the
`bool` variable `toUnzip` with the string `"false"`, and the variable `fileID`
of lines 124 and 131 is declared nowhere, so the source gives them no
behaviour. -/
def main {σ : Type} (env : Env σ) (inp : Inputs) (s : σ) : MainResult σ :=
  if inp.filename = "" then earlyFatal s (.missingInput filenameInput)
  else if inp.folderId = "" then earlyFatal s (.missingInput folderIdInput)
  else if inp.credentials = "" then earlyFatal s (.missingInput credentialsInput)
  else
    match parseEncoded inp.encoded with
    | none =>
        earlyFatal s (.incorrectInput encodedInput
          "encoded needs to be either empty, `false` or `true`.")
    | some encoded =>
      let decoded : Except String String :=
        if encoded then env.decodeString inp.credentials else .ok inp.credentials
      match decoded with
      | .error e => earlyFatal s (.base64 e)
      | .ok credentials =>
        let creds := trimSuffix credentials "\n"
        match env.jwtConfigFromJSON creds scope with
        | .error e => earlyFatal s (.jwt e)
        | .ok _ => mainUpload env inp s

/-! ## The query language of the store

String literals of a Drive search query are enclosed in single quotes; inside a
literal a backslash escapes the character after it.  These definitions read a
query string the way the store does; they are the yardstick for the query that
`uploadOrUpdateFile` builds. -/

/-- The single quote character. -/
def quoteChar : Char := Char.ofNat 39

/-- The backslash character. -/
def backslashChar : Char := Char.ofNat 92

/-- Reads a string literal whose opening quote has been consumed: the value of
the literal and the text after its closing quote.  The flag says that the
previous character was an escaping backslash. -/
def readQuotedAux : Bool → List Char → Option (List Char × List Char)
  | _, [] => none
  | true, c :: rest => (readQuotedAux false rest).map (fun p => (c :: p.1, p.2))
  | false, c :: rest =>
      if c = quoteChar then some ([], rest)
      else if c = backslashChar then readQuotedAux true rest
      else (readQuotedAux false rest).map (fun p => (c :: p.1, p.2))

def readQuoted (cs : List Char) : Option (List Char × List Char) :=
  readQuotedAux false cs

/-- Removes the leading text `lead` from `cs`, if `cs` starts with it. -/
def stripLead : List Char → List Char → Option (List Char)
  | [], cs => some cs
  | _ :: _, [] => none
  | p :: ps, c :: cs => if p = c then stripLead ps cs else none

/-- Reads a query of the form `name = <literal> and <literal> in parents` and
returns the values of the two literals. -/
def parseCondition (q : String) : Option (String × String) :=
  match stripLead "name = '".data q.data with
  | none => none
  | some r1 =>
    match readQuoted r1 with
    | none => none
    | some (n, r2) =>
      match stripLead " and '".data r2 with
      | none => none
      | some r3 =>
        match readQuoted r3 with
        | none => none
        | some (p, r4) => if r4 = " in parents".data then some (String.mk n, String.mk p) else none

/-- A string free of the two characters that are special inside a literal. -/
def plainLiteral (s : String) : Prop :=
  ∀ c ∈ s.data, c ≠ quoteChar ∧ c ≠ backslashChar

instance (s : String) : Decidable (plainLiteral s) := by
  unfold plainLiteral; infer_instance

/-- The base name of a path: its last component, after trailing separators are
dropped (`filepath.Base`). -/
def baseName (path : String) : String :=
  if path = "" then "."
  else
    let stripped := (path.data.reverse.dropWhile (fun c => c = '/'))
    let last := (stripped.takeWhile (fun c => c ≠ '/')).reverse
    if last = [] then "/" else String.mk last

/-! ## An in-memory object store

The store of the idempotence property: objects carry an id, a name, parent
folders and content; `list` answers a query with exactly the objects that have
the queried name and parent; `update` replaces name and content of the object
with the given id; `create` adds an object under an id no object has yet. -/

structure MemObj where
  id : String
  name : String
  parents : List String
  content : Bytes
  deriving DecidableEq, Repr

abbrev MemState := List MemObj

def MemObj.toDriveFile (o : MemObj) : DriveFile :=
  { Id := o.id, Name := o.name, Parents := o.parents }

/-- The objects named `name` that have `folderId` among their parents. -/
def matching (s : MemState) (name folderId : String) : List MemObj :=
  s.filter (fun o => decide (o.name = name ∧ folderId ∈ o.parents))

def maxIdLength : MemState → Nat
  | [] => 0
  | o :: rest => max o.id.length (maxIdLength rest)

/-- An id that no object of the store has: it is longer than all of them. -/
def freshId (s : MemState) : String :=
  String.mk (List.replicate (maxIdLength s + 1) 'i')

/-- The in-memory store; `parse` reads a query string into the name and the
parent folder it asks for. -/
def memStore (parse : String → Option (String × String)) : Store MemState where
  list := fun s q =>
    match parse q with
    | none => (.error "invalid query", s)
    | some (n, p) => (.ok ((matching s n p).map MemObj.toDriveFile), s)
  update := fun s fileId metadata media =>
    if s.any (fun o => decide (o.id = fileId)) then
      let s1 := s.map (fun o =>
        if o.id = fileId then { o with name := metadata.Name, content := media } else o)
      (.ok { Id := fileId, Name := metadata.Name, Parents := [] }, s1)
    else (.error "file not found", s)
  create := fun s metadata media =>
    let o : MemObj :=
      { id := freshId s, name := metadata.Name, parents := metadata.Parents, content := media }
    (.ok o.toDriveFile, s ++ [o])

/-! ## Fixed stores and environments used to run the code on concrete inputs -/

/-- A store without state: `list` answers every query with `files`, writes
succeed, `create` answers with the id `new`. -/
def fixedStore (files : List DriveFile) : Store Unit where
  list := fun s _ => (.ok files, s)
  update := fun s fileId metadata _ => (.ok { metadata with Id := fileId }, s)
  create := fun s metadata _ => (.ok { metadata with Id := "new" }, s)

/-- A store over a call counter whose `n`-th call (counting from 0) fails and
whose other calls behave like `fixedStore files`. -/
def failingStore (files : List DriveFile) (n : Nat) : Store Nat where
  list := fun s _ => if s = n then (.error "list failed", s + 1) else (.ok files, s + 1)
  update := fun s fileId metadata _ =>
    if s = n then (.error "update failed", s + 1) else (.ok { metadata with Id := fileId }, s + 1)
  create := fun s metadata _ =>
    if s = n then (.error "create failed", s + 1) else (.ok { metadata with Id := "new" }, s + 1)

/-- An environment in which credentials are accepted, every file can be read
and holds `data`, the store is `svc`, downloads yield `archive` or fail, and
extraction reports `extractErr`. -/
def simpleEnv {σ : Type} (svc : Store σ) (data : Bytes) (download : Except String Bytes)
    (extractErr : Option String) : Env σ where
  decodeString := fun c => .ok c
  jwtConfigFromJSON := fun _ _ => .ok ()
  readFile := fun _ => .ok data
  svc := svc
  downloadFile := fun _ s _ => (download, s)
  unzipFile := fun _ s _ _ => (extractErr, s, [])

def sampleInputs (filename name overwrite toUnzip : String) : Inputs :=
  { filename := filename, name := name, folderId := "F", credentials := "c",
    encoded := "false", overwrite := overwrite, toUnzip := toUnzip }

/-! ## Reading a run off its trace -/

/-- The store state after issuing one call. -/
def Store.exec {σ : Type} (svc : Store σ) (s : σ) : Call → σ
  | .list q => (svc.list s q).2
  | .update fileId metadata media => (svc.update s fileId metadata media).2
  | .create metadata media => (svc.create s metadata media).2

/-- The store state after issuing the calls in order. -/
def Store.replay {σ : Type} (svc : Store σ) (s : σ) (calls : List Call) : σ :=
  calls.foldl svc.exec s

/-- The update calls the loop issues when it walks through all of `files`
starting with the handle `file`. -/
def updateCalls (name : String) : File → List DriveFile → List Call
  | _, [] => []
  | file, d :: rest =>
      .update d.Id { Id := "", Name := name, Parents := [] } file.media
        :: updateCalls name file.drained rest

/-- The calls of a trace. -/
def calls (trace : List Event) : List Call := trace.map (fun e => e.call)

/-- The update calls of a trace. -/
def updatesOf (trace : List Event) : List Call := (calls trace).filter Call.isUpdate

/-- The create calls of a trace. -/
def createsOf (trace : List Event) : List Call := (calls trace).filter Call.isCreate

/-- The list calls of a trace. -/
def listsOf (trace : List Event) : List Call := (calls trace).filter Call.isList

/-- The id of the last file of `files`, or `dflt` when there is none. -/
def lastId (dflt : String) : List DriveFile → String
  | [] => dflt
  | d :: rest => lastId d.Id rest

/-- The error, if any, with which the store answers a call issued in state `s`. -/
def Store.answer {σ : Type} (svc : Store σ) (s : σ) : Call → Option String
  | .list q =>
      match (svc.list s q).1 with
      | .error e => some e
      | .ok _ => none
  | .update fileId metadata media =>
      match (svc.update s fileId metadata media).1 with
      | .error e => some e
      | .ok _ => none
  | .create metadata media =>
      match (svc.create s metadata media).1 with
      | .error e => some e
      | .ok _ => none

/-- Whether the store answers every one of the calls, issued in order from
state `s`, without an error. -/
def Store.allOk {σ : Type} (svc : Store σ) : σ → List Call → Bool
  | _, [] => true
  | s, c :: cs => (svc.answer s c).isNone && Store.allOk svc (svc.exec s c) cs

/-- A trace is faithful to the store when the flag of every event is the
store's own answer to that call in the state the call was issued in. -/
def traceFaithful {σ : Type} (svc : Store σ) : σ → List Event → Prop
  | _, [] => True
  | s, ev :: rest =>
      ev.ok = (svc.answer s ev.call).isNone ∧ traceFaithful svc (svc.exec s ev.call) rest

/-- The first of two reconciliation runs on the in-memory store. -/
def firstRun (parse : String → Option (String × String)) (s : MemState) (file : File)
    (name folderId : String) : UploadResult MemState :=
  uploadOrUpdateFile (memStore parse) s file name folderId true

/-- The second run, on the store the first run left, with a newly opened file. -/
def secondRun (parse : String → Option (String × String)) (s : MemState) (file1 file2 : File)
    (name folderId : String) : UploadResult MemState :=
  uploadOrUpdateFile (memStore parse) (firstRun parse s file1 name folderId).store file2
    name folderId true

/-! ## Lemmas on the update loop -/

theorem updateCalls_isUpdate (name : String) (files : List DriveFile) (file : File) :
    ∀ c ∈ updateCalls name file files, c.isUpdate = true := by
  induction files generalizing file with
  | nil => simp [updateCalls]
  | cons d rest ih =>
    intro c hc
    simp only [updateCalls, List.mem_cons] at hc
    rcases hc with rfl | hc
    · rfl
    · exact ih _ c hc

theorem updateCalls_targets (name : String) (files : List DriveFile) (file : File) :
    (updateCalls name file files).filterMap Call.target? = files.map (fun d => d.Id) := by
  induction files generalizing file with
  | nil => simp [updateCalls]
  | cons d rest ih => simp [updateCalls, Call.target?, ih]

theorem updateCalls_length (name : String) (files : List DriveFile) (file : File) :
    (updateCalls name file files).length = files.length := by
  induction files generalizing file with
  | nil => simp [updateCalls]
  | cons d rest ih => simp [updateCalls, ih]

theorem lastId_eq_getLast (files : List DriveFile) (h : files ≠ []) (dflt : String) :
    lastId dflt files = (files.getLast h).Id := by
  induction files generalizing dflt with
  | nil => exact absurd rfl h
  | cons d rest ih =>
    cases rest with
    | nil => simp [lastId]
    | cons d2 rest2 =>
      have := ih (List.cons_ne_nil d2 rest2) d.Id
      simpa [lastId, List.getLast_cons] using this

/-- The calls of the loop are the update calls for a leading segment of the
matches, as long as the trace. -/
theorem updateLoop_calls {σ : Type} (svc : Store σ) (name : String) (files : List DriveFile)
    (s : σ) (file : File) (fid : String) :
    calls (updateLoop svc name files s file fid).trace
        = updateCalls name file (files.take (updateLoop svc name files s file fid).trace.length)
      ∧ (updateLoop svc name files s file fid).trace.length ≤ files.length := by
  induction files generalizing s file fid with
  | nil => simp [updateLoop, calls, updateCalls]
  | cons d rest ih =>
    rcases h : svc.update s d.Id { Id := "", Name := name, Parents := [] } file.media
      with ⟨_ | _, s1⟩
    · simp [updateLoop, h, calls, updateCalls]
    · have := ih s1 file.drained d.Id
      simp only [calls] at this
      simp [updateLoop, h, calls, updateCalls, this.1, this.2]

/-- The store state the loop leaves is the one its calls produce. -/
theorem updateLoop_store {σ : Type} (svc : Store σ) (name : String) (files : List DriveFile)
    (s : σ) (file : File) (fid : String) :
    (updateLoop svc name files s file fid).store
      = svc.replay s (calls (updateLoop svc name files s file fid).trace) := by
  induction files generalizing s file fid with
  | nil => simp [updateLoop, calls, Store.replay]
  | cons d rest ih =>
    rcases h : svc.update s d.Id { Id := "", Name := name, Parents := [] } file.media
      with ⟨_ | _, s1⟩
    · simp [updateLoop, h, calls, Store.replay, Store.exec]
    · have := ih s1 file.drained d.Id
      simp only [calls, Store.replay] at this
      simp [updateLoop, h, calls, Store.replay, Store.exec, this]

/-- A loop that returns a nil error made every update, all of them succeeded,
and it returns the id of the last match. -/
theorem updateLoop_ok {σ : Type} (svc : Store σ) (name : String) (files : List DriveFile)
    (s : σ) (file : File) (fid : String)
    (h : (updateLoop svc name files s file fid).err = none) :
    (∀ e ∈ (updateLoop svc name files s file fid).trace, e.ok = true)
      ∧ (updateLoop svc name files s file fid).trace.length = files.length
      ∧ (updateLoop svc name files s file fid).fileId = lastId fid files := by
  induction files generalizing s file fid with
  | nil => simp [updateLoop, lastId]
  | cons d rest ih =>
    rcases hu : svc.update s d.Id { Id := "", Name := name, Parents := [] } file.media
      with ⟨_ | _, s1⟩
    · simp [updateLoop, hu] at h
    · simp only [updateLoop, hu] at h
      have := ih s1 file.drained d.Id h
      simp [updateLoop, hu, lastId, this.1, this.2.1, this.2.2]
      exact this.1

/-- A loop that returns an error returns the empty id, and its last call is its
only failed call. -/
theorem updateLoop_err {σ : Type} (svc : Store σ) (name : String) (files : List DriveFile)
    (s : σ) (file : File) (fid : String)
    (h : (updateLoop svc name files s file fid).err ≠ none) :
    (updateLoop svc name files s file fid).fileId = ""
      ∧ ∃ pre ev, (updateLoop svc name files s file fid).trace = pre ++ [ev]
          ∧ ev.ok = false ∧ ev.call.isUpdate = true ∧ ∀ e ∈ pre, e.ok = true := by
  induction files generalizing s file fid with
  | nil => simp [updateLoop] at h
  | cons d rest ih =>
    rcases hu : svc.update s d.Id { Id := "", Name := name, Parents := [] } file.media
      with ⟨_ | _, s1⟩
    · refine ⟨by simp [updateLoop, hu], [],
        ⟨.update d.Id { Id := "", Name := name, Parents := [] } file.media, false⟩,
        by simp [updateLoop, hu], rfl, rfl, by simp⟩
    · simp only [updateLoop, hu] at h
      obtain ⟨h1, pre, ev, h2, h3, h4, h5⟩ := ih s1 file.drained d.Id h
      refine ⟨by simp [updateLoop, hu, h1],
        ⟨.update d.Id { Id := "", Name := name, Parents := [] } file.media, true⟩ :: pre, ev,
        by simp [updateLoop, hu, h2], h3, h4, ?_⟩
      intro e he
      simp only [List.mem_cons] at he
      rcases he with rfl | he
      · rfl
      · exact h5 e he

/-! ## Lemmas on uploadOrUpdateFile -/

/-- With `overwrite` set and a query that returns matches, the run is the query
followed by the update loop. -/
theorem upload_overwrite_matches {σ : Type} (svc : Store σ) (s s1 : σ) (file : File)
    (name folderId : String) (files : List DriveFile)
    (hlist : svc.list s (filenameQuery name folderId) = (.ok files, s1)) (hne : files ≠ []) :
    uploadOrUpdateFile svc s file name folderId true
      = { updateLoop svc name files s1 file "" with
          trace := ⟨.list (filenameQuery name folderId), true⟩
            :: (updateLoop svc name files s1 file "").trace } := by
  have hlen : files.length ≠ 0 := by
    intro h
    exact hne (List.length_eq_zero.mp h)
  simp [uploadOrUpdateFile, hlist, hlen]

/-- With `overwrite` set and a query that returns no match, the run is the
query followed by the create block. -/
theorem upload_overwrite_none {σ : Type} (svc : Store σ) (s s1 : σ) (file : File)
    (name folderId : String)
    (hlist : svc.list s (filenameQuery name folderId) = (.ok [], s1)) :
    uploadOrUpdateFile svc s file name folderId true
      = { createNew svc s1 file name folderId with
          trace := ⟨.list (filenameQuery name folderId), true⟩
            :: (createNew svc s1 file name folderId).trace } := by
  simp [uploadOrUpdateFile, hlist]

theorem createNew_calls {σ : Type} (svc : Store σ) (s : σ) (file : File)
    (name folderId : String) :
    calls (createNew svc s file name folderId).trace
      = [.create { Id := "", Name := name, Parents := [folderId] } file.media] := by
  rcases h : svc.create s { Id := "", Name := name, Parents := [folderId] } file.media
    with ⟨_ | _, s1⟩ <;> simp [createNew, h, calls]

theorem filter_isUpdate_updateCalls (name : String) (files : List DriveFile) (file : File) :
    (updateCalls name file files).filter Call.isUpdate = updateCalls name file files :=
  List.filter_eq_self.mpr (updateCalls_isUpdate name files file)

theorem filter_isCreate_updateCalls (name : String) (files : List DriveFile) (file : File) :
    (updateCalls name file files).filter Call.isCreate = [] := by
  rw [List.filter_eq_nil_iff]
  intro c hc
  have := updateCalls_isUpdate name files file c hc
  cases c <;> simp_all [Call.isUpdate, Call.isCreate]

/-- The create block either succeeds with one successful call or fails with the
empty id and one failed call. -/
theorem createNew_outcome {σ : Type} (svc : Store σ) (s : σ) (file : File)
    (name folderId : String) :
    ((createNew svc s file name folderId).err = none
        ∧ ∀ e ∈ (createNew svc s file name folderId).trace, e.ok = true)
      ∨ ((createNew svc s file name folderId).err ≠ none
        ∧ (createNew svc s file name folderId).fileId = ""
        ∧ ∃ ev, (createNew svc s file name folderId).trace = [ev] ∧ ev.ok = false) := by
  rcases h : svc.create s { Id := "", Name := name, Parents := [folderId] } file.media
    with ⟨_ | _, s1⟩ <;> simp [createNew, h]

theorem createNew_store {σ : Type} (svc : Store σ) (s : σ) (file : File)
    (name folderId : String) :
    (createNew svc s file name folderId).store
      = svc.replay s (calls (createNew svc s file name folderId).trace) := by
  rcases h : svc.create s { Id := "", Name := name, Parents := [folderId] } file.media
    with ⟨_ | _, s1⟩ <;> simp [createNew, h, calls, Store.replay, Store.exec]

/-- Every run either returns a nil error after calls that all succeeded, or
returns the empty id and an error right after its only failed call. -/
theorem upload_outcome {σ : Type} (svc : Store σ) (s : σ) (file : File)
    (name folderId : String) (overwrite : Bool) :
    ((uploadOrUpdateFile svc s file name folderId overwrite).err = none
        ∧ ∀ e ∈ (uploadOrUpdateFile svc s file name folderId overwrite).trace, e.ok = true)
      ∨ ((uploadOrUpdateFile svc s file name folderId overwrite).err ≠ none
        ∧ (uploadOrUpdateFile svc s file name folderId overwrite).fileId = ""
        ∧ ∃ pre ev, (uploadOrUpdateFile svc s file name folderId overwrite).trace = pre ++ [ev]
            ∧ ev.ok = false ∧ ∀ e ∈ pre, e.ok = true) := by
  cases overwrite with
  | false =>
    have hrun : uploadOrUpdateFile svc s file name folderId false
        = createNew svc s file name folderId := by simp [uploadOrUpdateFile]
    rw [hrun]
    rcases createNew_outcome svc s file name folderId with h | ⟨h1, h2, ev, h3, h4⟩
    · exact Or.inl h
    · exact Or.inr ⟨h1, h2, [], ev, by simp [h3], h4, by simp⟩
  | true =>
    rcases hl : svc.list s (filenameQuery name folderId) with ⟨e | files, s1⟩
    · right
      refine ⟨by simp [uploadOrUpdateFile, hl], by simp [uploadOrUpdateFile, hl], [],
        ⟨.list (filenameQuery name folderId), false⟩, by simp [uploadOrUpdateFile, hl], rfl,
        by simp⟩
    · by_cases hne : files = []
      · subst hne
        rw [upload_overwrite_none svc s s1 file name folderId hl]
        rcases createNew_outcome svc s1 file name folderId with ⟨h1, h2⟩ | ⟨h1, h2, ev, h3, h4⟩
        · left
          refine ⟨h1, ?_⟩
          intro e he
          simp only [List.mem_cons] at he
          rcases he with rfl | he
          · rfl
          · exact h2 e he
        · right
          refine ⟨h1, h2, [⟨.list (filenameQuery name folderId), true⟩], ev, by simp [h3], h4, ?_⟩
          intro e he
          simp only [List.mem_singleton] at he
          subst he
          rfl
      · rw [upload_overwrite_matches svc s s1 file name folderId files hl hne]
        by_cases herr : (updateLoop svc name files s1 file "").err = none
        · left
          refine ⟨herr, ?_⟩
          intro e he
          simp only [List.mem_cons] at he
          rcases he with rfl | he
          · rfl
          · exact (updateLoop_ok svc name files s1 file "" herr).1 e he
        · right
          obtain ⟨h1, pre, ev, h2, h3, _, h5⟩ := updateLoop_err svc name files s1 file "" herr
          refine ⟨herr, h1, ⟨.list (filenameQuery name folderId), true⟩ :: pre, ev,
            by simp [h2], h3, ?_⟩
          intro e he
          simp only [List.mem_cons] at he
          rcases he with rfl | he
          · rfl
          · exact h5 e he

/-- The store state a run leaves is the one its calls produce, in order: no
effect of a call is taken back. -/
theorem upload_store {σ : Type} (svc : Store σ) (s : σ) (file : File)
    (name folderId : String) (overwrite : Bool) :
    (uploadOrUpdateFile svc s file name folderId overwrite).store
      = svc.replay s (calls (uploadOrUpdateFile svc s file name folderId overwrite).trace) := by
  cases overwrite with
  | false =>
    have hrun : uploadOrUpdateFile svc s file name folderId false
        = createNew svc s file name folderId := by simp [uploadOrUpdateFile]
    rw [hrun]
    exact createNew_store svc s file name folderId
  | true =>
    rcases hl : svc.list s (filenameQuery name folderId) with ⟨e | files, s1⟩
    · simp [uploadOrUpdateFile, hl, calls, Store.replay, Store.exec]
    · by_cases hne : files = []
      · subst hne
        rw [upload_overwrite_none svc s s1 file name folderId hl]
        have := createNew_store svc s1 file name folderId
        simp only [calls, Store.replay] at this
        simp [calls, Store.replay, Store.exec, hl, this]
      · rw [upload_overwrite_matches svc s s1 file name folderId files hl hne]
        have := updateLoop_store svc name files s1 file ""
        simp only [calls, Store.replay] at this
        simp [calls, Store.replay, Store.exec, hl, this]

/-! ## C1 -/

/-- C1: with `overwrite` set, a query that returns `N ≥ 1` matches and every
store call of the run succeeding, the run makes exactly `N` update calls, one
per match in query-result order, makes no create call, and returns the id of the
last match with a nil error. -/
theorem uploadOrUpdateFile_updates_every_match {σ : Type} (svc : Store σ) (s s1 : σ)
    (file : File) (name folderId : String) (files : List DriveFile)
    (hlist : svc.list s (filenameQuery name folderId) = (.ok files, s1))
    (hne : files ≠ [])
    (hok : ∀ e ∈ (uploadOrUpdateFile svc s file name folderId true).trace, e.ok = true) :
    (updatesOf (uploadOrUpdateFile svc s file name folderId true).trace).length = files.length
      ∧ (updatesOf (uploadOrUpdateFile svc s file name folderId true).trace).filterMap
          Call.target? = files.map (fun d => d.Id)
      ∧ createsOf (uploadOrUpdateFile svc s file name folderId true).trace = []
      ∧ (uploadOrUpdateFile svc s file name folderId true).fileId = (files.getLast hne).Id
      ∧ (uploadOrUpdateFile svc s file name folderId true).err = none
      ∧ calls (uploadOrUpdateFile svc s file name folderId true).trace
          = .list (filenameQuery name folderId) :: updateCalls name file files := by
  rw [upload_overwrite_matches svc s s1 file name folderId files hlist hne] at hok ⊢
  have herr : (updateLoop svc name files s1 file "").err = none := by
    by_contra hc
    obtain ⟨_, pre, ev, h2, h3, _, _⟩ := updateLoop_err svc name files s1 file "" hc
    have := hok ev (by simp [h2])
    rw [h3] at this
    exact Bool.noConfusion this
  obtain ⟨_, hlen, hid⟩ := updateLoop_ok svc name files s1 file "" herr
  have hcalls := (updateLoop_calls svc name files s1 file "").1
  rw [hlen, List.take_length] at hcalls
  have hc2 : calls (⟨.list (filenameQuery name folderId), true⟩
      :: (updateLoop svc name files s1 file "").trace)
      = .list (filenameQuery name folderId) :: updateCalls name file files := by
    rw [← hcalls]; rfl
  refine ⟨?_, ?_, ?_, ?_, herr, hc2⟩
  · simp only [updatesOf, hc2]
    simp [List.filter_cons, Call.isUpdate, filter_isUpdate_updateCalls, updateCalls_length]
  · simp only [updatesOf, hc2]
    simp [List.filter_cons, Call.isUpdate, filter_isUpdate_updateCalls, updateCalls_targets]
  · simp only [createsOf, hc2]
    simp [List.filter_cons, Call.isCreate, filter_isCreate_updateCalls]
  · simp only [hid]
    exact lastId_eq_getLast files hne ""

/-- C1 at a store that answers the query with two matches `a`, `b`. -/
theorem uploadOrUpdateFile_updates_every_match_witness :
    (updatesOf (uploadOrUpdateFile
        (fixedStore [⟨"a", "report.csv", ["F"]⟩, ⟨"b", "report.csv", ["F"]⟩]) ()
        (osOpen "report.csv" [1, 2]) "report.csv" "F" true).trace).length = 2
      ∧ (uploadOrUpdateFile
        (fixedStore [⟨"a", "report.csv", ["F"]⟩, ⟨"b", "report.csv", ["F"]⟩]) ()
        (osOpen "report.csv" [1, 2]) "report.csv" "F" true).fileId = "b" := by
  have h := uploadOrUpdateFile_updates_every_match
    (fixedStore [⟨"a", "report.csv", ["F"]⟩, ⟨"b", "report.csv", ["F"]⟩]) () ()
    (osOpen "report.csv" [1, 2]) "report.csv" "F"
    [⟨"a", "report.csv", ["F"]⟩, ⟨"b", "report.csv", ["F"]⟩] rfl (by decide) (by decide)
  exact ⟨h.1, h.2.2.2.1⟩

/-! ## C2 -/

/-- C2: without `overwrite` the run issues no list query and no update call; its
only store call is one create call for an object with `Name = name` and
`Parents = [folderId]`, and when that call succeeds the run returns the id of
the created object with a nil error. -/
theorem uploadOrUpdateFile_no_overwrite_creates {σ : Type} (svc : Store σ) (s : σ)
    (file : File) (name folderId : String) :
    listsOf (uploadOrUpdateFile svc s file name folderId false).trace = []
      ∧ updatesOf (uploadOrUpdateFile svc s file name folderId false).trace = []
      ∧ calls (uploadOrUpdateFile svc s file name folderId false).trace
          = [.create { Id := "", Name := name, Parents := [folderId] } file.media]
      ∧ ∀ created s1,
          svc.create s { Id := "", Name := name, Parents := [folderId] } file.media
              = (.ok created, s1) →
            (uploadOrUpdateFile svc s file name folderId false).fileId = created.Id
              ∧ (uploadOrUpdateFile svc s file name folderId false).err = none
              ∧ (uploadOrUpdateFile svc s file name folderId false).store = s1 := by
  have hrun : uploadOrUpdateFile svc s file name folderId false
      = createNew svc s file name folderId := by
    simp [uploadOrUpdateFile]
  rw [hrun]
  refine ⟨?_, ?_, createNew_calls svc s file name folderId, ?_⟩
  · simp [listsOf, createNew_calls, Call.isList]
  · simp [updatesOf, createNew_calls, Call.isUpdate]
  · intro created s1 h
    simp [createNew, h]

/-- C2 at a store that holds a same-named object: the run still only creates. -/
theorem uploadOrUpdateFile_no_overwrite_creates_witness :
    calls (uploadOrUpdateFile (fixedStore [⟨"a", "report.csv", ["F"]⟩]) ()
        (osOpen "report.csv" [1, 2]) "report.csv" "F" false).trace
      = [.create { Id := "", Name := "report.csv", Parents := ["F"] } [1, 2]]
    ∧ (uploadOrUpdateFile (fixedStore [⟨"a", "report.csv", ["F"]⟩]) ()
        (osOpen "report.csv" [1, 2]) "report.csv" "F" false).fileId = "new" :=
  ⟨(uploadOrUpdateFile_no_overwrite_creates (fixedStore [⟨"a", "report.csv", ["F"]⟩]) ()
      (osOpen "report.csv" [1, 2]) "report.csv" "F").2.2.1,
   ((uploadOrUpdateFile_no_overwrite_creates (fixedStore [⟨"a", "report.csv", ["F"]⟩]) ()
      (osOpen "report.csv" [1, 2]) "report.csv" "F").2.2.2
        ⟨"new", "report.csv", ["F"]⟩ () rfl).1⟩

/-! ## C3 -/

theorem drained_media (file : File) : file.drained.media = [] := by
  simp [File.drained, File.media]

theorem drained_drained (file : File) : file.drained.drained = file.drained := by
  simp [File.drained]

/-- Once the handle is drained, every update call of the loop uploads nothing. -/
theorem updateCalls_drained_media (name : String) (files : List DriveFile) (file : File) :
    (updateCalls name file.drained files).filterMap Call.media?
      = List.replicate files.length [] := by
  induction files with
  | nil => simp [updateCalls]
  | cons d rest ih =>
    simp only [updateCalls, drained_drained]
    simp [Call.media?, drained_media, ih, List.replicate_succ]

/-- The first update call uploads what is left in the handle; all later update
calls of the same run upload zero bytes. -/
theorem updateCalls_media (name : String) (d : DriveFile) (rest : List DriveFile)
    (file : File) :
    (updateCalls name file (d :: rest)).filterMap Call.media?
      = file.media :: List.replicate rest.length [] := by
  simp [updateCalls, Call.media?, updateCalls_drained_media]

/-- C3: a run with `overwrite` set on a freshly opened file holding the bytes
`1, 2`, against a store that answers the query with the two matches `a` and `b`
and accepts every call, succeeds with two update calls, and the update of `b`
uploads zero bytes instead of the bytes of the file. -/
theorem second_match_receives_no_content :
    (uploadOrUpdateFile
        (fixedStore [⟨"a", "report.csv", ["F"]⟩, ⟨"b", "report.csv", ["F"]⟩]) ()
        (osOpen "report.csv" [1, 2]) "report.csv" "F" true).err = none
      ∧ calls (uploadOrUpdateFile
        (fixedStore [⟨"a", "report.csv", ["F"]⟩, ⟨"b", "report.csv", ["F"]⟩]) ()
        (osOpen "report.csv" [1, 2]) "report.csv" "F" true).trace
        = [.list "name = 'report.csv' and 'F' in parents",
           .update "a" { Id := "", Name := "report.csv", Parents := [] } [1, 2],
           .update "b" { Id := "", Name := "report.csv", Parents := [] } []]
      ∧ (osOpen "report.csv" [1, 2]).data ≠ [] := by
  decide

/-! ## C5 -/

theorem updateLoop_faithful {σ : Type} (svc : Store σ) (name : String)
    (files : List DriveFile) (s : σ) (file : File) (fid : String) :
    traceFaithful svc s (updateLoop svc name files s file fid).trace := by
  induction files generalizing s file fid with
  | nil => simp [updateLoop, traceFaithful]
  | cons d rest ih =>
    rcases h : svc.update s d.Id { Id := "", Name := name, Parents := [] } file.media
      with ⟨_ | _, s1⟩
    · simp [updateLoop, h, traceFaithful, Store.answer]
    · have := ih s1 file.drained d.Id
      simp [updateLoop, h, traceFaithful, Store.answer, Store.exec, this]

theorem createNew_faithful {σ : Type} (svc : Store σ) (s : σ) (file : File)
    (name folderId : String) :
    traceFaithful svc s (createNew svc s file name folderId).trace := by
  rcases h : svc.create s { Id := "", Name := name, Parents := [folderId] } file.media
    with ⟨_ | _, s1⟩ <;> simp [createNew, h, traceFaithful, Store.answer]

/-- The flags in the trace of a run are the answers of the store. -/
theorem upload_faithful {σ : Type} (svc : Store σ) (s : σ) (file : File)
    (name folderId : String) (overwrite : Bool) :
    traceFaithful svc s (uploadOrUpdateFile svc s file name folderId overwrite).trace := by
  cases overwrite with
  | false =>
    have hrun : uploadOrUpdateFile svc s file name folderId false
        = createNew svc s file name folderId := by simp [uploadOrUpdateFile]
    rw [hrun]
    exact createNew_faithful svc s file name folderId
  | true =>
    rcases hl : svc.list s (filenameQuery name folderId) with ⟨e | files, s1⟩
    · simp [uploadOrUpdateFile, hl, traceFaithful, Store.answer]
    · by_cases hne : files = []
      · subst hne
        rw [upload_overwrite_none svc s s1 file name folderId hl]
        have := createNew_faithful svc s1 file name folderId
        simp [traceFaithful, Store.answer, Store.exec, hl, this]
      · rw [upload_overwrite_matches svc s s1 file name folderId files hl hne]
        have := updateLoop_faithful svc name files s1 file ""
        simp [traceFaithful, Store.answer, Store.exec, hl, this]

/-- On a faithful trace the store answers all calls without error exactly when
all flags are set. -/
theorem faithful_allOk {σ : Type} (svc : Store σ) (s : σ) (t : List Event)
    (h : traceFaithful svc s t) :
    svc.allOk s (calls t) = t.all (fun e => e.ok) := by
  induction t generalizing s with
  | nil => rfl
  | cons ev rest ih =>
    obtain ⟨h1, h2⟩ := h
    have := ih (svc.exec s ev.call) h2
    simp only [calls] at this
    simp [calls, Store.allOk, h1, this]

/-- On a faithful trace whose events before the last all carry a set flag, the
store answers those calls without error, and the flag of the last event is the
store's answer in the state they leave. -/
theorem faithful_last {σ : Type} (svc : Store σ) (s : σ) (pre : List Event) (ev : Event)
    (h : traceFaithful svc s (pre ++ [ev])) (hpre : ∀ e ∈ pre, e.ok = true) :
    svc.allOk s (calls pre) = true
      ∧ ev.ok = (svc.answer (svc.replay s (calls pre)) ev.call).isNone := by
  induction pre generalizing s with
  | nil => simpa [calls, Store.allOk, Store.replay, traceFaithful] using h.1
  | cons a rest ih =>
    obtain ⟨h1, h2⟩ := h
    have ha := hpre a (List.mem_cons_self a rest)
    obtain ⟨i1, i2⟩ := ih (svc.exec s a.call) h2 (fun e he => hpre e (List.mem_cons_of_mem a he))
    simp only [calls, Store.replay] at i1 i2
    rw [ha] at h1
    refine ⟨?_, ?_⟩
    · simp [calls, Store.allOk, ← h1, i1]
    · simpa [calls, Store.replay] using i2

/-- The loop at the first update the store answers with an error: when the
store answers the updates of the first `k` matches without error and the next
one with the error `e`, the loop returns the empty id and the error for that
match, having issued the updates of the first `k + 1` matches and nothing else,
and leaves the store as the failed call left it. -/
theorem updateLoop_fail_at {σ : Type} (svc : Store σ) (name : String)
    (files : List DriveFile) (s : σ) (file : File) (fid : String) (k : Nat) (c : Call)
    (e : String)
    (hc : (updateCalls name file files)[k]? = some c)
    (hall : svc.allOk s (updateCalls name file (files.take k)) = true)
    (hans : svc.answer (svc.replay s (updateCalls name file (files.take k))) c = some e) :
    (updateLoop svc name files s file fid).fileId = ""
      ∧ (∃ d, files[k]? = some d
          ∧ (updateLoop svc name files s file fid).err = some (.updating d e))
      ∧ calls (updateLoop svc name files s file fid).trace
          = updateCalls name file (files.take (k + 1))
      ∧ (updateLoop svc name files s file fid).store
          = svc.exec (svc.replay s (updateCalls name file (files.take k))) c := by
  induction files generalizing s file fid k with
  | nil => simp [updateCalls] at hc
  | cons d rest ih =>
    rcases hu : svc.update s d.Id { Id := "", Name := name, Parents := [] } file.media
      with ⟨e2 | _, s1⟩
    · cases k with
      | zero =>
        simp only [updateCalls, List.getElem?_cons_zero, Option.some.injEq] at hc
        subst hc
        simp only [List.take_zero, updateCalls, Store.replay, List.foldl_nil, Store.answer,
          hu, Option.some.injEq] at hans
        subst hans
        simp [updateLoop, hu, calls, updateCalls, Store.replay, Store.exec]
      | succ k =>
        simp [updateCalls, Store.allOk, Store.answer, hu] at hall
    · cases k with
      | zero =>
        simp only [updateCalls, List.getElem?_cons_zero, Option.some.injEq] at hc
        subst hc
        simp [updateCalls, Store.replay, Store.answer, hu] at hans
      | succ k =>
        simp only [updateCalls, List.getElem?_cons_succ] at hc
        simp only [List.take_succ_cons, updateCalls, Store.allOk, Store.exec, hu,
          Bool.and_eq_true] at hall
        simp only [List.take_succ_cons, updateCalls, Store.replay, List.foldl_cons,
          Store.exec, hu] at hans
        obtain ⟨i1, ⟨d2, i2, i3⟩, i4, i5⟩ := ih s1 file.drained d.Id k hc hall.2 hans
        simp only [calls, Store.replay] at i4 i5
        refine ⟨by simp [updateLoop, hu, i1], ⟨d2, by simpa using i2, by simp [updateLoop, hu, i3]⟩,
          by simp [updateLoop, hu, calls, updateCalls, i4], ?_⟩
        simp [updateLoop, hu, updateCalls, Store.replay, Store.exec, i5]

/-- C5: fail-fast and non-transactional, in terms of the answers of the store.
The flags of the trace are the store's answers.  When the store answers one of
the calls of the run with an error, the run returns the empty id and a non-nil
error, and the failed call is the last call of the run, all calls before it
having been answered without error.  The store is left in the state the issued
calls produced, so earlier updates stay in effect.  A query answered with an
error is the only call of its run (no update, no create) and its error is
returned.  When the query returned matches and the store answers the updates of
the first `k` matches without error and the update of the next match with an
error, the run returns that error for that match after exactly `k + 1` update
calls, on the first `k + 1` matches in order, and no create call.  A create
answered with an error is returned after that one create call. -/
theorem uploadOrUpdateFile_fail_fast {σ : Type} (svc : Store σ) (s : σ) (file : File)
    (name folderId : String) (overwrite : Bool) :
    traceFaithful svc s (uploadOrUpdateFile svc s file name folderId overwrite).trace
      ∧ (uploadOrUpdateFile svc s file name folderId overwrite).store
          = svc.replay s (calls (uploadOrUpdateFile svc s file name folderId overwrite).trace)
      ∧ (svc.allOk s (calls (uploadOrUpdateFile svc s file name folderId overwrite).trace)
            = false →
          (uploadOrUpdateFile svc s file name folderId overwrite).fileId = ""
            ∧ (uploadOrUpdateFile svc s file name folderId overwrite).err ≠ none
            ∧ ∃ pre c,
                calls (uploadOrUpdateFile svc s file name folderId overwrite).trace = pre ++ [c]
                  ∧ svc.allOk s pre = true
                  ∧ svc.answer (svc.replay s pre) c ≠ none)
      ∧ (∀ e s1, overwrite = true →
          svc.list s (filenameQuery name folderId) = (.error e, s1) →
          (uploadOrUpdateFile svc s file name folderId overwrite).fileId = ""
            ∧ (uploadOrUpdateFile svc s file name folderId overwrite).err
                = some (.querying (filenameQuery name folderId) e)
            ∧ calls (uploadOrUpdateFile svc s file name folderId overwrite).trace
                = [.list (filenameQuery name folderId)]
            ∧ updatesOf (uploadOrUpdateFile svc s file name folderId overwrite).trace = []
            ∧ createsOf (uploadOrUpdateFile svc s file name folderId overwrite).trace = []
            ∧ (uploadOrUpdateFile svc s file name folderId overwrite).store = s1)
      ∧ (∀ files s1 k c e, overwrite = true →
          svc.list s (filenameQuery name folderId) = (.ok files, s1) →
          (updateCalls name file files)[k]? = some c →
          svc.allOk s1 (updateCalls name file (files.take k)) = true →
          svc.answer (svc.replay s1 (updateCalls name file (files.take k))) c = some e →
          (uploadOrUpdateFile svc s file name folderId overwrite).fileId = ""
            ∧ (∃ d, files[k]? = some d
                ∧ (uploadOrUpdateFile svc s file name folderId overwrite).err
                    = some (.updating d e))
            ∧ calls (uploadOrUpdateFile svc s file name folderId overwrite).trace
                = .list (filenameQuery name folderId)
                    :: updateCalls name file (files.take (k + 1))
            ∧ (updatesOf (uploadOrUpdateFile svc s file name folderId overwrite).trace).length
                = k + 1
            ∧ createsOf (uploadOrUpdateFile svc s file name folderId overwrite).trace = []
            ∧ (uploadOrUpdateFile svc s file name folderId overwrite).store
                = svc.exec (svc.replay s1 (updateCalls name file (files.take k))) c)
      ∧ (∀ s0 e s2,
          (overwrite = false ∧ s0 = s
            ∨ overwrite = true ∧ svc.list s (filenameQuery name folderId) = (.ok [], s0)) →
          svc.create s0 { Id := "", Name := name, Parents := [folderId] } file.media
              = (.error e, s2) →
          (uploadOrUpdateFile svc s file name folderId overwrite).fileId = ""
            ∧ (uploadOrUpdateFile svc s file name folderId overwrite).err
                = some (.creating { Id := "", Name := name, Parents := [folderId] } e)
            ∧ updatesOf (uploadOrUpdateFile svc s file name folderId overwrite).trace = []
            ∧ createsOf (uploadOrUpdateFile svc s file name folderId overwrite).trace
                = [.create { Id := "", Name := name, Parents := [folderId] } file.media]
            ∧ (uploadOrUpdateFile svc s file name folderId overwrite).store = s2) := by
  have hfaith := upload_faithful svc s file name folderId overwrite
  refine ⟨hfaith, upload_store svc s file name folderId overwrite, ?_, ?_, ?_, ?_⟩
  · intro hfail
    rw [faithful_allOk svc s _ hfaith] at hfail
    have hbad : ∃ bad ∈ (uploadOrUpdateFile svc s file name folderId overwrite).trace,
        bad.ok = false := by
      by_contra hno
      have : (uploadOrUpdateFile svc s file name folderId overwrite).trace.all
          (fun e => e.ok) = true := by
        rw [List.all_eq_true]
        intro x hx
        by_contra hx2
        exact hno ⟨x, hx, by simpa using hx2⟩
      rw [this] at hfail
      exact Bool.noConfusion hfail
    obtain ⟨bad, hbadmem, hbadok⟩ := hbad
    rcases upload_outcome svc s file name folderId overwrite with ⟨_, h⟩ | ⟨h1, h2, pre, ev, h3, h4, h5⟩
    · have := h bad hbadmem
      rw [hbadok] at this
      exact Bool.noConfusion this
    · refine ⟨h2, h1, calls pre, ev.call, by simp [h3, calls], ?_, ?_⟩
      · rw [h3] at hfaith
        exact (faithful_last svc s pre ev hfaith h5).1
      · rw [h3] at hfaith
        have := (faithful_last svc s pre ev hfaith h5).2
        rw [h4] at this
        intro hnone
        rw [hnone] at this
        exact Bool.noConfusion this
  · intro e s1 how hl
    subst how
    simp [uploadOrUpdateFile, hl, calls, updatesOf, createsOf, Call.isUpdate, Call.isCreate]
  · intro files s1 k c e how hl hc hall hans
    subst how
    have hne : files ≠ [] := by
      intro h
      subst h
      simp [updateCalls] at hc
    have hk : k < files.length := by
      have := (List.getElem?_eq_some_iff.mp hc).1
      rwa [updateCalls_length] at this
    obtain ⟨i1, i2, i3, i4⟩ := updateLoop_fail_at svc name files s1 file "" k c e hc hall hans
    rw [upload_overwrite_matches svc s s1 file name folderId files hl hne]
    have hc2 : calls (⟨.list (filenameQuery name folderId), true⟩
        :: (updateLoop svc name files s1 file "").trace)
        = .list (filenameQuery name folderId)
          :: updateCalls name file (files.take (k + 1)) := by
      rw [← i3]; rfl
    refine ⟨i1, i2, hc2, ?_, ?_, i4⟩
    · simp only [updatesOf, hc2]
      simp [List.filter_cons, Call.isUpdate, filter_isUpdate_updateCalls, updateCalls_length]
      omega
    · simp only [createsOf, hc2]
      simp [List.filter_cons, Call.isCreate, filter_isCreate_updateCalls]
  · intro s0 e s2 hpath hcreate
    have hcn : (createNew svc s0 file name folderId).fileId = ""
        ∧ (createNew svc s0 file name folderId).err
            = some (.creating { Id := "", Name := name, Parents := [folderId] } e)
        ∧ (createNew svc s0 file name folderId).trace
            = [⟨.create { Id := "", Name := name, Parents := [folderId] } file.media, false⟩]
        ∧ (createNew svc s0 file name folderId).store = s2 := by
      simp [createNew, hcreate]
    rcases hpath with ⟨how, hs⟩ | ⟨how, hl⟩
    · subst how; subst hs
      have hrun : uploadOrUpdateFile svc s0 file name folderId false
          = createNew svc s0 file name folderId := by simp [uploadOrUpdateFile]
      rw [hrun]
      refine ⟨hcn.1, hcn.2.1, ?_, ?_, hcn.2.2.2⟩
      · simp [updatesOf, calls, hcn.2.2.1, Call.isUpdate]
      · simp [createsOf, calls, hcn.2.2.1, Call.isCreate]
    · subst how
      rw [upload_overwrite_none svc s s0 file name folderId hl]
      refine ⟨hcn.1, hcn.2.1, ?_, ?_, hcn.2.2.2⟩
      · simp [updatesOf, calls, hcn.2.2.1, Call.isUpdate]
      · simp [createsOf, calls, hcn.2.2.1, Call.isCreate, List.filter_cons]

/-- C5 at a store with three matches whose third call (the update of the second
match) is answered with an error: the run returns the empty id and that error
for the match `b` after two update calls. -/
theorem uploadOrUpdateFile_fail_fast_witness :
    (uploadOrUpdateFile
        (failingStore [⟨"a", "n", ["F"]⟩, ⟨"b", "n", ["F"]⟩, ⟨"c", "n", ["F"]⟩] 2) 0
        (osOpen "n" [1, 2]) "n" "F" true).fileId = ""
      ∧ (updatesOf (uploadOrUpdateFile
        (failingStore [⟨"a", "n", ["F"]⟩, ⟨"b", "n", ["F"]⟩, ⟨"c", "n", ["F"]⟩] 2) 0
        (osOpen "n" [1, 2]) "n" "F" true).trace).length = 2 := by
  have h := (uploadOrUpdateFile_fail_fast
      (failingStore [⟨"a", "n", ["F"]⟩, ⟨"b", "n", ["F"]⟩, ⟨"c", "n", ["F"]⟩] 2) 0
      (osOpen "n" [1, 2]) "n" "F" true).2.2.2.2.1
      [⟨"a", "n", ["F"]⟩, ⟨"b", "n", ["F"]⟩, ⟨"c", "n", ["F"]⟩] 1 1
      (.update "b" { Id := "", Name := "n", Parents := [] } []) "update failed"
      rfl rfl (by decide) (by decide) (by decide)
  exact ⟨h.1, h.2.2.2.1⟩

/-! ## C6 -/

/-- C6: with `overwrite` set and a query that succeeds with zero matches, the
run is the query followed by exactly the run without `overwrite` on the store
the query left: the same single create call for `Name = name`,
`Parents = [folderId]` with the same bytes, no update call, and the same
returned id, error, store state and file handle. -/
theorem uploadOrUpdateFile_no_match_creates {σ : Type} (svc : Store σ) (s s1 : σ)
    (file : File) (name folderId : String)
    (hlist : svc.list s (filenameQuery name folderId) = (.ok [], s1)) :
    (uploadOrUpdateFile svc s file name folderId true).trace
        = ⟨.list (filenameQuery name folderId), true⟩
            :: (uploadOrUpdateFile svc s1 file name folderId false).trace
      ∧ (uploadOrUpdateFile svc s file name folderId true).fileId
          = (uploadOrUpdateFile svc s1 file name folderId false).fileId
      ∧ (uploadOrUpdateFile svc s file name folderId true).err
          = (uploadOrUpdateFile svc s1 file name folderId false).err
      ∧ (uploadOrUpdateFile svc s file name folderId true).store
          = (uploadOrUpdateFile svc s1 file name folderId false).store
      ∧ (uploadOrUpdateFile svc s file name folderId true).file
          = (uploadOrUpdateFile svc s1 file name folderId false).file
      ∧ calls (uploadOrUpdateFile svc s file name folderId true).trace
          = [.list (filenameQuery name folderId),
             .create { Id := "", Name := name, Parents := [folderId] } file.media]
      ∧ updatesOf (uploadOrUpdateFile svc s file name folderId true).trace = [] := by
  have hrun : uploadOrUpdateFile svc s1 file name folderId false
      = createNew svc s1 file name folderId := by simp [uploadOrUpdateFile]
  rw [upload_overwrite_none svc s s1 file name folderId hlist, hrun]
  have hc := createNew_calls svc s1 file name folderId
  simp only [calls] at hc
  refine ⟨rfl, rfl, rfl, rfl, rfl, ?_, ?_⟩
  · simp [calls, hc]
  · simp [updatesOf, calls, hc, Call.isUpdate]

/-- C6 at a store that answers the query with no match. -/
theorem uploadOrUpdateFile_no_match_creates_witness :
    (uploadOrUpdateFile (fixedStore []) () (osOpen "report.csv" [1, 2])
        "report.csv" "F" true).fileId
      = (uploadOrUpdateFile (fixedStore []) () (osOpen "report.csv" [1, 2])
        "report.csv" "F" false).fileId :=
  (uploadOrUpdateFile_no_match_creates (fixedStore []) () ()
    (osOpen "report.csv" [1, 2]) "report.csv" "F" rfl).2.1

/-! ## C10 -/

/-- C10: when the download fails, `unzipGoogleDriveFile` returns the download
error unchanged, runs only the download stage, issues no store call of the
extract stage and leaves the store as the download left it; when the download
succeeds, its error, store state and store calls are those of the extract stage
run on the downloaded bytes and `destFolder`. -/
theorem unzipGoogleDriveFile_download {σ : Type} (svc : Store σ)
    (downloadFile : Store σ → σ → String → Except String Bytes × σ)
    (unzipFile : Store σ → σ → Bytes → String → Option String × σ × List Event)
    (s : σ) (fileId destFolder : String) :
    (∀ e s1, downloadFile svc s fileId = (.error e, s1) →
        (unzipGoogleDriveFile svc downloadFile unzipFile s fileId destFolder).err = some e
          ∧ (unzipGoogleDriveFile svc downloadFile unzipFile s fileId destFolder).steps
              = [.download fileId]
          ∧ (unzipGoogleDriveFile svc downloadFile unzipFile s fileId destFolder).created = []
          ∧ (unzipGoogleDriveFile svc downloadFile unzipFile s fileId destFolder).store = s1)
      ∧ (∀ content s1, downloadFile svc s fileId = (.ok content, s1) →
        (unzipGoogleDriveFile svc downloadFile unzipFile s fileId destFolder).err
            = (unzipFile svc s1 content destFolder).1
          ∧ (unzipGoogleDriveFile svc downloadFile unzipFile s fileId destFolder).store
            = (unzipFile svc s1 content destFolder).2.1
          ∧ (unzipGoogleDriveFile svc downloadFile unzipFile s fileId destFolder).created
            = (unzipFile svc s1 content destFolder).2.2
          ∧ (unzipGoogleDriveFile svc downloadFile unzipFile s fileId destFolder).steps
            = [.download fileId, .extract content destFolder]) := by
  constructor
  · intro e s1 h
    simp [unzipGoogleDriveFile, h]
  · intro content s1 h
    simp [unzipGoogleDriveFile, h]

/-- C10 at a download that fails with `not found`. -/
theorem unzipGoogleDriveFile_download_witness :
    (unzipGoogleDriveFile (fixedStore []) (fun _ s _ => (.error "not found", s))
        (fun _ s _ _ => (none, s, [])) () "id1" "F/archive").err = some "not found" :=
  ((unzipGoogleDriveFile_download (fixedStore []) (fun _ s _ => (.error "not found", s))
      (fun _ s _ _ => (none, s, [])) () "id1" "F/archive").1 "not found" () rfl).1

/-! ## C4 -/

theorem stripLead_append (lead rest : List Char) : stripLead lead (lead ++ rest) = some rest := by
  induction lead with
  | nil => cases rest <;> simp [stripLead]
  | cons p ps ih => simp [stripLead, ih]

theorem readQuoted_plain (lit rest : List Char)
    (h : ∀ c ∈ lit, c ≠ quoteChar ∧ c ≠ backslashChar) :
    readQuoted (lit ++ quoteChar :: rest) = some (lit, rest) := by
  unfold readQuoted
  induction lit with
  | nil => simp [readQuotedAux]
  | cons c cs ih =>
    have hc := h c (List.mem_cons_self c cs)
    have ih2 := ih (fun d hd => h d (List.mem_cons_of_mem c hd))
    simp [readQuotedAux, hc.1, hc.2, ih2]

theorem filenameQuery_data (name folderId : String) :
    (filenameQuery name folderId).data
      = "name = '".data ++ (name.data ++ quoteChar :: (" and '".data
          ++ (folderId.data ++ quoteChar :: " in parents".data))) := by
  have h1 : ("' and '" : String).data = quoteChar :: " and '".data := by decide
  have h2 : ("' in parents" : String).data = quoteChar :: " in parents".data := by decide
  simp only [filenameQuery, String.data_append, h1, h2, List.append_assoc, List.cons_append]
  rfl

/-- A query built from a name and a folder id that contain neither a single
quote nor a backslash reads as the condition on that name and that folder. -/
theorem filenameQuery_parses_plain (name folderId : String)
    (hname : plainLiteral name) (hfolder : plainLiteral folderId) :
    parseCondition (filenameQuery name folderId) = some (name, folderId) := by
  unfold parseCondition
  rw [filenameQuery_data, stripLead_append]
  simp only []
  rw [readQuoted_plain name.data _ hname]
  simp only []
  rw [stripLead_append]
  simp only []
  rw [readQuoted_plain folderId.data _ hfolder]
  simp

/-- C4: the query is built without escaping.  For the name
`x' or name contains '` and the folder `F` the query sent is
`name = 'x' or name contains '' and 'F' in parents`: the quote inside the name
ends the literal, so the first literal of the query is `x` and the query does
not read as the condition on that name.  A name that ends in a backslash, with
a suitable folder id, yields a query that reads as the condition on a different
name and a different folder. -/
theorem filenameQuery_not_escaped :
    filenameQuery "x' or name contains '" "F"
        = "name = 'x' or name contains '' and 'F' in parents"
      ∧ parseCondition (filenameQuery "x' or name contains '" "F")
        ≠ some ("x' or name contains '", "F")
      ∧ readQuoted ((filenameQuery "x' or name contains '" "F").data.drop 8)
        = some ("x".data, " or name contains '' and 'F' in parents".data)
      ∧ parseCondition (filenameQuery (String.mk [Char.ofNat 97, backslashChar]) " and 'b")
        = some ("a' and ", "b") := by
  decide

/-! ## Lemmas on main -/

/-- A run of `main` either ends in `Fatalf` before the file is opened, or is the
part of `main` that starts at `os.Open`. -/
theorem main_cases {σ : Type} (env : Env σ) (inp : Inputs) (s : σ) :
    (∃ f, main env inp s = earlyFatal s f) ∨ main env inp s = mainUpload env inp s := by
  unfold main
  split
  · exact Or.inl ⟨_, rfl⟩
  split
  · exact Or.inl ⟨_, rfl⟩
  split
  · exact Or.inl ⟨_, rfl⟩
  split
  · exact Or.inl ⟨_, rfl⟩
  · simp only []
    split
    · exact Or.inl ⟨_, rfl⟩
    · split
      · exact Or.inl ⟨_, rfl⟩
      · exact Or.inr rfl

/-- What the part of `main` from `os.Open` on does: it ends in `Fatalf` when
the file cannot be opened, and otherwise runs the upload step on the opened
file. -/
theorem mainUpload_cases {σ : Type} (env : Env σ) (inp : Inputs) (s : σ) :
    (∃ f, mainUpload env inp s = earlyFatal s f)
      ∨ ∃ data, env.readFile inp.filename = .ok data
        ∧ (mainUpload env inp s).upload
          = some (uploadOrUpdateFile env.svc s (osOpen inp.filename data)
              (resolveName inp.name (osOpen inp.filename data)) inp.folderId
              (parseOverwrite inp.overwrite)) := by
  unfold mainUpload
  cases hr : env.readFile inp.filename with
  | error e => exact Or.inl ⟨_, rfl⟩
  | ok data =>
    right
    refine ⟨data, rfl, ?_⟩
    simp only []
    split <;> rfl

/-- The result of the upload step of a run of `main` that reached it. -/
theorem main_upload_eq {σ : Type} (env : Env σ) (inp : Inputs) (s : σ) (up : UploadResult σ)
    (h : (main env inp s).upload = some up) :
    main env inp s = mainUpload env inp s
      ∧ ∃ data, env.readFile inp.filename = .ok data
        ∧ up = uploadOrUpdateFile env.svc s (osOpen inp.filename data)
            (resolveName inp.name (osOpen inp.filename data)) inp.folderId
            (parseOverwrite inp.overwrite) := by
  rcases main_cases env inp s with ⟨f, hf⟩ | hm
  · rw [hf] at h
    simp [earlyFatal] at h
  · refine ⟨hm, ?_⟩
    rw [hm] at h
    rcases mainUpload_cases env inp s with ⟨f, hf⟩ | ⟨data, hr, hup⟩
    · rw [hf] at h
      simp [earlyFatal] at h
    · rw [hup] at h
      exact ⟨data, hr, (Option.some.inj h).symm⟩

/-! ## C7 -/

/-- C7, as the code has it: when a run of `main` reaches the upload step, the
name it passes on is the explicit name verbatim if that is non-empty, and
otherwise the source path exactly as given to `os.Open` (what `file.Name()`
returns), directory part included. -/
theorem main_effective_name {σ : Type} (env : Env σ) (inp : Inputs) (s : σ)
    (up : UploadResult σ) (h : (main env inp s).upload = some up) :
    ∃ data, env.readFile inp.filename = .ok data
      ∧ up = uploadOrUpdateFile env.svc s (osOpen inp.filename data)
          (if inp.name = "" then inp.filename else inp.name) inp.folderId
          (parseOverwrite inp.overwrite)
      ∧ (inp.name ≠ "" → resolveName inp.name (osOpen inp.filename data) = inp.name)
      ∧ (inp.name = "" → resolveName inp.name (osOpen inp.filename data) = inp.filename) := by
  obtain ⟨_, data, hr, hup⟩ := main_upload_eq env inp s up h
  refine ⟨data, hr, ?_, ?_, ?_⟩
  · rw [hup]; rfl
  · intro hn; simp [resolveName, hn]
  · intro hn; simp [resolveName, hn, File.Name, osOpen]

/-- C7 at the source path `out/report.csv` with no explicit name. -/
theorem main_effective_name_witness :
    ∃ data, (simpleEnv (fixedStore []) [1] (.ok [9]) none).readFile "out/report.csv" = .ok data
      ∧ uploadOrUpdateFile (fixedStore []) () (osOpen "out/report.csv" [1]) "out/report.csv" "F"
          false
        = uploadOrUpdateFile (fixedStore []) () (osOpen "out/report.csv" data)
          "out/report.csv" "F" false := by
  obtain ⟨data, h1, h2, _⟩ := main_effective_name (simpleEnv (fixedStore []) [1] (.ok [9]) none)
    (sampleInputs "out/report.csv" "" "false" "") ()
    (uploadOrUpdateFile (fixedStore []) () (osOpen "out/report.csv" [1]) "out/report.csv" "F"
      false) rfl
  exact ⟨data, h1, h2⟩

/-- C7 fails: for the source path `out/report.csv` and no explicit name, the
effective name is the path `out/report.csv`, not the base name `report.csv`, and
the object `main` creates is named `out/report.csv`. -/
theorem effective_name_is_not_base_name :
    resolveName "" (osOpen "out/report.csv" [1]) = "out/report.csv"
      ∧ baseName "out/report.csv" = "report.csv"
      ∧ resolveName "" (osOpen "out/report.csv" [1]) ≠ baseName "out/report.csv"
      ∧ ((main (simpleEnv (fixedStore []) [1] (.ok [9]) none)
            (sampleInputs "out/report.csv" "" "false" "") ()).upload.map
              (fun up => calls up.trace))
          = some [.create { Id := "", Name := "out/report.csv", Parents := ["F"] } [1]] := by
  decide

/-! ## C8 -/

theorem id_length_le_max (s : MemState) : ∀ o ∈ s, o.id.length ≤ maxIdLength s := by
  induction s with
  | nil => simp
  | cons a rest ih =>
    intro o ho
    simp only [List.mem_cons] at ho
    rcases ho with rfl | ho
    · simp [maxIdLength]
    · have := ih o ho
      simp only [maxIdLength]
      omega

theorem freshId_length (s : MemState) : (freshId s).length = maxIdLength s + 1 := by
  simp [freshId, String.length]

/-- No object of the store has the fresh id. -/
theorem freshId_ne (s : MemState) : ∀ o ∈ s, o.id ≠ freshId s := by
  intro o ho h
  have h1 := id_length_le_max s o ho
  have h2 := freshId_length s
  rw [← h] at h2
  omega

theorem map_update_other (s : MemState) (fileId name : String) (media : Bytes)
    (h : ∀ o ∈ s, o.id ≠ fileId) :
    s.map (fun o => if o.id = fileId then { o with name := name, content := media } else o)
      = s := by
  induction s with
  | nil => rfl
  | cons a rest ih =>
    have ha := h a (List.mem_cons_self a rest)
    have := ih (fun o ho => h o (List.mem_cons_of_mem a ho))
    simp [ha, this]

/-- The first run on a store without a match: one query, one create. -/
theorem firstRun_eq (parse : String → Option (String × String)) (s : MemState) (file : File)
    (name folderId : String)
    (hparse : parse (filenameQuery name folderId) = some (name, folderId))
    (hnone : matching s name folderId = []) :
    firstRun parse s file name folderId
      = { fileId := freshId s, err := none,
          store := s ++ [⟨freshId s, name, [folderId], file.media⟩],
          file := file.drained,
          trace := [⟨.list (filenameQuery name folderId), true⟩,
            ⟨.create { Id := "", Name := name, Parents := [folderId] } file.media, true⟩] } := by
  unfold firstRun
  rw [upload_overwrite_none (memStore parse) s s file name folderId
    (by simp [memStore, hparse, hnone])]
  simp [createNew, memStore, MemObj.toDriveFile]

theorem matching_after_create (s : MemState) (name folderId : String) (fileId : String)
    (media : Bytes) (hnone : matching s name folderId = []) :
    matching (s ++ [⟨fileId, name, [folderId], media⟩]) name folderId
      = [⟨fileId, name, [folderId], media⟩] := by
  unfold matching at hnone ⊢
  rw [List.filter_append, hnone]
  simp

/-- The second run: one query that finds the object of the first run, one
update of that object. -/
theorem secondRun_eq (parse : String → Option (String × String)) (s : MemState)
    (file1 file2 : File) (name folderId : String)
    (hparse : parse (filenameQuery name folderId) = some (name, folderId))
    (hnone : matching s name folderId = []) :
    secondRun parse s file1 file2 name folderId
      = { fileId := freshId s, err := none,
          store := s ++ [⟨freshId s, name, [folderId], file2.media⟩],
          file := file2.drained,
          trace := [⟨.list (filenameQuery name folderId), true⟩,
            ⟨.update (freshId s) { Id := "", Name := name, Parents := [] } file2.media,
              true⟩] } := by
  unfold secondRun
  rw [firstRun_eq parse s file1 name folderId hparse hnone]
  simp only []
  rw [upload_overwrite_matches (memStore parse)
    (s ++ [MemObj.mk (freshId s) name [folderId] file1.media])
    (s ++ [MemObj.mk (freshId s) name [folderId] file1.media]) file2 name folderId
    [DriveFile.mk (freshId s) name [folderId]]
    (by simp [memStore, hparse, matching_after_create s name folderId _ _ hnone,
          MemObj.toDriveFile])
    (by simp)]
  have hex : ∃ x ∈ s ++ [MemObj.mk (freshId s) name [folderId] file1.media],
      x.id = freshId s :=
    ⟨MemObj.mk (freshId s) name [folderId] file1.media, by simp, rfl⟩
  simp [updateLoop, memStore, map_update_other s (freshId s) name file2.media (freshId_ne s)]
  simp only [if_pos hex]
  simp

/-- C8: on the in-memory store, whose `list` returns exactly the objects with
the queried name and parent, starting from a store with no object named `name`
in `folderId`: both runs with `overwrite` set succeed; after each of them
exactly one object with that name is in that folder, the one the first run
created; the second run issues the query and one update of that object, no
create, adds no object, and returns the same id as the first run. -/
theorem reconcile_twice_idempotent (parse : String → Option (String × String))
    (s : MemState) (file1 file2 : File) (name folderId : String)
    (hparse : parse (filenameQuery name folderId) = some (name, folderId))
    (hnone : matching s name folderId = []) :
    (firstRun parse s file1 name folderId).err = none
      ∧ (secondRun parse s file1 file2 name folderId).err = none
      ∧ (matching (firstRun parse s file1 name folderId).store name folderId).map (fun o => o.id)
          = [(firstRun parse s file1 name folderId).fileId]
      ∧ (matching (secondRun parse s file1 file2 name folderId).store name folderId).map
          (fun o => o.id) = [(firstRun parse s file1 name folderId).fileId]
      ∧ calls (secondRun parse s file1 file2 name folderId).trace
          = [.list (filenameQuery name folderId),
             .update (firstRun parse s file1 name folderId).fileId
               { Id := "", Name := name, Parents := [] } file2.media]
      ∧ (∀ e ∈ (secondRun parse s file1 file2 name folderId).trace, e.ok = true)
      ∧ createsOf (secondRun parse s file1 file2 name folderId).trace = []
      ∧ (secondRun parse s file1 file2 name folderId).fileId
          = (firstRun parse s file1 name folderId).fileId
      ∧ (secondRun parse s file1 file2 name folderId).store.length
          = (firstRun parse s file1 name folderId).store.length
      ∧ (∀ o ∈ s, o.id ≠ (firstRun parse s file1 name folderId).fileId) := by
  rw [secondRun_eq parse s file1 file2 name folderId hparse hnone,
    firstRun_eq parse s file1 name folderId hparse hnone]
  refine ⟨rfl, rfl, ?_, ?_, ?_, ?_, ?_, rfl, ?_, freshId_ne s⟩
  · simp [matching_after_create s name folderId _ _ hnone]
  · simp [matching_after_create s name folderId _ _ hnone]
  · simp [calls]
  · intro e he
    simp only [List.mem_cons, List.mem_singleton, List.not_mem_nil, or_false] at he
    rcases he with rfl | rfl <;> rfl
  · simp [createsOf, calls, Call.isCreate]
  · simp

/-- C8 at a store that holds one object of another name in the folder `F`, with
the query read by `parseCondition`. -/
theorem reconcile_twice_idempotent_witness :
    (secondRun parseCondition [⟨"i", "other.csv", ["F"], [7]⟩] (osOpen "report.csv" [1, 2])
        (osOpen "report.csv" [3]) "report.csv" "F").fileId
      = (firstRun parseCondition [⟨"i", "other.csv", ["F"], [7]⟩] (osOpen "report.csv" [1, 2])
        "report.csv" "F").fileId
    ∧ (secondRun parseCondition [⟨"i", "other.csv", ["F"], [7]⟩] (osOpen "report.csv" [1, 2])
        (osOpen "report.csv" [3]) "report.csv" "F").store
      = [⟨"i", "other.csv", ["F"], [7]⟩, ⟨"ii", "report.csv", ["F"], [3]⟩] :=
  ⟨(reconcile_twice_idempotent parseCondition [⟨"i", "other.csv", ["F"], [7]⟩]
      (osOpen "report.csv" [1, 2]) (osOpen "report.csv" [3]) "report.csv" "F"
      (by decide) (by decide)).2.2.2.2.2.2.2.1, by decide⟩

end GDriveUpload
